import Mathlib

/-!
Verification development for `DenseUAV/image.py` (`divide_image_into_patches`).

The function has two phases:
* a Grid Planner: a pure search over factorizations of `target_N` choosing a
  `(num_patches_y, num_patches_x, patch_size)` layout, with a hard override for
  `target_N = 9` and a (dead) fallback branch;
* a Patch Extractor: an emission loop that crops, conditionally resizes and
  saves at most `target_N` square patches, returning the number written.

Machine integers are modelled as `Nat` (Python ints are unbounded and all
quantities here are non-negative); Python `//` is `Nat` division; the
`ZeroDivisionError` raised by `width // patch_size_candidate` when a candidate
edge is 0 is modelled with `Except Unit`.
-/

/-- `abs (a - b)` on Python ints whose operands are non-negative. -/
def absDiff (a b : Nat) : Nat := max a b - min a b

/-- Fuel-driven loop computing the floor square root: raise `k` while
`(k+1)^2` still fits under `n`. Structural recursion, so the kernel can
evaluate it on literals. -/
def isqrtGo (n : Nat) : Nat → Nat → Nat
  | 0, k => k
  | fuel + 1, k => if (k + 1) * (k + 1) ≤ n then isqrtGo n fuel (k + 1) else k

/-- `int(math.sqrt(n))` of the source, i.e. the floor square root. -/
def isqrt (n : Nat) : Nat := isqrtGo n n 0

/-- One candidate of the grid search: the quantities the loop body computes
for a divisor `num_patches_y` of `target_N`. -/
structure Cand where
  num_patches_y : Nat
  num_patches_x : Nat
  patch_h : Nat
  patch_w : Nat
  patch_size_candidate : Nat
  score : Nat
deriving DecidableEq, Repr

/-- The loop body of the grid search for one value of `num_patches_y`
(source lines 48-66): `num_patches_x = target_N // num_patches_y`,
`patch_h = height // num_patches_y`, `patch_w = width // num_patches_x`,
`patch_size_candidate = min patch_h patch_w`,
`actual_N = (width // patch_size_candidate) * (height // patch_size_candidate)`,
and the score preferring exact `actual_N = target_N` then squareness. -/
def mkCand (width height target_N num_patches_y : Nat) : Cand :=
  let num_patches_x := target_N / num_patches_y
  let patch_h := height / num_patches_y
  let patch_w := width / num_patches_x
  let patch_size_candidate := min patch_h patch_w
  let actual_num_x := width / patch_size_candidate
  let actual_num_y := height / patch_size_candidate
  let actual_N := actual_num_x * actual_num_y
  let score :=
    if actual_N = target_N then absDiff patch_h patch_w
    else absDiff actual_N target_N * 1000 + absDiff patch_h patch_w
  ⟨num_patches_y, num_patches_x, patch_h, patch_w, patch_size_candidate, score⟩

/-- The candidates the loop enumerates: every `num_patches_y` in
`range(1, int(sqrt(target_N)) + 2)` dividing `target_N`, in ascending order. -/
def candList (width height target_N : Nat) : List Cand :=
  (List.range' 1 (isqrt target_N + 1)).filterMap fun d =>
    if target_N % d = 0 then some (mkCand width height target_N d) else none

/-- The pure part of the best-candidate update (source lines 68-70), reached
only when no `ZeroDivisionError` fired: replace the best when
`score < best_score ∧ patch_size_candidate > 0` (`best = none` is the initial
`best_score = inf`). -/
def candStepP (best : Option Cand) (c : Cand) : Option Cand :=
  match best with
  | none => if 0 < c.patch_size_candidate then some c else none
  | some b => if c.score < b.score ∧ 0 < c.patch_size_candidate then some c else some b

/-- Processing one candidate: Python raises `ZeroDivisionError` at
`width // patch_size_candidate` (source line 58) when the candidate edge is 0,
before the `patch_size_candidate > 0` guard is reached. -/
def candStep (best : Option Cand) (c : Cand) : Except Unit (Option Cand) :=
  if c.patch_size_candidate = 0 then .error () else .ok (candStepP best c)

/-- One iteration of the search loop (source lines 46-70): values of
`num_patches_y` not dividing `target_N` are skipped. -/
def scanStep (width height target_N : Nat) (best : Option Cand) (d : Nat) :
    Except Unit (Option Cand) :=
  if target_N % d = 0 then candStep best (mkCand width height target_N d) else .ok best

/-- The whole search loop: fold of `scanStep` over
`range(1, int(sqrt(target_N)) + 2)` starting from no best arrangement. -/
def gridSearch (width height target_N : Nat) : Except Unit (Option Cand) :=
  (List.range' 1 (isqrt target_N + 1)).foldlM (scanStep width height target_N) none

/-- The layout the planner hands to the emission loop. -/
structure GridLayout where
  num_patches_y : Nat
  num_patches_x : Nat
  patch_size : Nat
deriving DecidableEq, Repr

/-- The Grid Planner (source lines 42-92): run the search; if it found no
arrangement, fall back to a 3x3 grid with `patch_size = min (width//3)
(height//3)` (source lines 72-79); finally, whenever `target_N = 9`, override
the result with that same fixed 3x3 layout (source lines 85-92). -/
def planLayout (width height target_N : Nat) : Except Unit GridLayout :=
  match gridSearch width height target_N with
  | .error e => .error e
  | .ok best =>
    let g : GridLayout :=
      match best with
      | none => ⟨3, 3, min (width / 3) (height / 3)⟩
      | some c => ⟨c.num_patches_y, c.num_patches_x, c.patch_size_candidate⟩
    if target_N = 9 then .ok ⟨3, 3, min (width / 3) (height / 3)⟩ else .ok g

/-- The errors `divide_image_into_patches` can raise: `FileNotFoundError`
carrying the offending path (source lines 20-24), and the `ZeroDivisionError`
escaping from the planner loop. -/
inductive ExtractErr where
  | notFound (path : String)
  | zeroDivision
deriving DecidableEq, Repr

/-- One saved patch file: its grid indices, its filename, the pixel dimensions
of the image actually written, and whether the resize branch ran. -/
structure SavedPatch where
  row : Nat
  col : Nat
  filename : String
  pixW : Nat
  pixH : Nat
  resized : Bool
deriving DecidableEq, Repr

/-- Cropping and saving one patch (source lines 102-118): crop the box
`(j*patch_size, i*patch_size, min (j*patch_size+patch_size) width,
min (i*patch_size+patch_size) height)`; if the cropped dimensions differ from
`patch_size × patch_size`, resize to exactly that square; save as
`<base_name>_patch_<i>_<j>.png`. -/
def makePatch (base_name : String) (width height patch_size i j : Nat) : SavedPatch :=
  let left := j * patch_size
  let top := i * patch_size
  let right := min (left + patch_size) width
  let bottom := min (top + patch_size) height
  let cropW := right - left
  let cropH := bottom - top
  let needsResize : Bool := decide (cropW ≠ patch_size ∨ cropH ≠ patch_size)
  { row := i
    col := j
    filename := base_name ++ "_patch_" ++ toString i ++ "_" ++ toString j ++ ".png"
    pixW := if needsResize then patch_size else cropW
    pixH := if needsResize then patch_size else cropH
    resized := needsResize }

/-- The nested emission loop (source lines 95-123): row-major over the layout,
skipping (Python: breaking) as soon as `patch_count` has reached `target_N`;
the state is `(patch_count, saved files so far)`. -/
def emitLoop (base_name : String) (width height : Nat) (g : GridLayout)
    (target_N : Nat) : Nat × List SavedPatch :=
  (List.range g.num_patches_y).foldl
    (fun s i =>
      (List.range g.num_patches_x).foldl
        (fun t j =>
          if target_N ≤ t.1 then t
          else (t.1 + 1, t.2 ++ [makePatch base_name width height g.patch_size i j]))
        s)
    (0, [])

/-- The result of a successful `divide_image_into_patches` call: the returned
`patch_count`, the layout the planner chose, and the files written. -/
structure ExtractResult where
  patch_count : Nat
  layout : GridLayout
  patches : List SavedPatch
deriving DecidableEq, Repr

/-- `divide_image_into_patches` (source lines 6-131). `imageExists` models
`os.path.exists image_path`; the first component of the result records whether
`os.makedirs` ran (the output directory was created). The existence check
precedes the `makedirs` call, which precedes the planner and the emission
loop. -/
def divide_image_into_patches (image_path base_name : String) (imageExists : Bool)
    (width height target_N : Nat) : Bool × Except ExtractErr ExtractResult :=
  if !imageExists then
    (false, .error (.notFound image_path))
  else
    match planLayout width height target_N with
    | .error _ => (true, .error .zeroDivision)
    | .ok g =>
      let r := emitLoop base_name width height g target_N
      (true, .ok ⟨r.1, g, r.2⟩)

/-- Row-major enumeration of all `(i, j)` grid indices of a layout. -/
def rowMajor (num_patches_y num_patches_x : Nat) : List (Nat × Nat) :=
  (List.range num_patches_y).flatMap fun i =>
    (List.range num_patches_x).map fun j => (i, j)

/-! ### `isqrt` is the floor square root -/

lemma isqrtGo_spec (n : Nat) :
    ∀ fuel k, k * k ≤ n → n < (k + fuel + 1) * (k + fuel + 1) →
      isqrtGo n fuel k * isqrtGo n fuel k ≤ n ∧
        n < (isqrtGo n fuel k + 1) * (isqrtGo n fuel k + 1) := by
  intro fuel
  induction fuel with
  | zero =>
    intro k hk hub
    exact ⟨hk, by simpa using hub⟩
  | succ fuel ih =>
    intro k hk hub
    by_cases h : (k + 1) * (k + 1) ≤ n
    · rw [isqrtGo, if_pos h]
      exact ih (k + 1) h
        (by rw [show k + 1 + fuel + 1 = k + (fuel + 1) + 1 from by omega]; exact hub)
    · rw [isqrtGo, if_neg h]
      exact ⟨hk, Nat.lt_of_not_le h⟩

lemma isqrt_spec (n : Nat) :
    isqrt n * isqrt n ≤ n ∧ n < (isqrt n + 1) * (isqrt n + 1) := by
  refine isqrtGo_spec n n 0 (by simp) ?_
  have h1 : n < n + 1 := Nat.lt_succ_self n
  have h2 : n + 1 ≤ (n + 1) * (n + 1) := Nat.le_mul_of_pos_left _ (Nat.succ_pos n)
  simpa using Nat.lt_of_lt_of_le h1 h2

lemma isqrt_unique {n r : Nat} (h1 : r * r ≤ n) (h2 : n < (r + 1) * (r + 1)) :
    isqrt n = r := by
  obtain ⟨hs1, hs2⟩ := isqrt_spec n
  have hle : isqrt n ≤ r := by
    by_contra hlt
    have hr1 : r + 1 ≤ isqrt n := Nat.lt_of_not_le hlt
    have : (r + 1) * (r + 1) ≤ isqrt n * isqrt n := Nat.mul_le_mul hr1 hr1
    exact absurd (Nat.lt_of_lt_of_le h2 (Nat.le_trans this hs1)) (Nat.lt_irrefl n)
  have hge : r ≤ isqrt n := by
    by_contra hlt
    have hr1 : isqrt n + 1 ≤ r := Nat.lt_of_not_le hlt
    have : (isqrt n + 1) * (isqrt n + 1) ≤ r * r := Nat.mul_le_mul hr1 hr1
    exact absurd (Nat.lt_of_lt_of_le hs2 (Nat.le_trans this h1)) (Nat.lt_irrefl n)
  exact Nat.le_antisymm hle hge

lemma isqrt_mul_self (k : Nat) : isqrt (k * k) = k := by
  refine isqrt_unique (Nat.le_refl _) ?_
  have h : (k + 1) * (k + 1) = k * k + (2 * k + 1) := by ring
  omega

/-! ### The search loop as a fold over the candidate list -/

lemma except_bind_ok {ε α β : Type} (a : α) (f : α → Except ε β) :
    (Except.ok a >>= f) = f a := rfl

lemma except_bind_error {ε α β : Type} (e : ε) (f : α → Except ε β) :
    ((Except.error e : Except ε α) >>= f) = Except.error e := rfl

lemma foldlM_scanStep (width height target_N : Nat) :
    ∀ (l : List Nat) (s : Option Cand),
      l.foldlM (scanStep width height target_N) s =
        (l.filterMap fun d =>
            if target_N % d = 0 then some (mkCand width height target_N d) else none
          ).foldlM candStep s := by
  intro l
  induction l with
  | nil => intro s; rfl
  | cons d l ih =>
    intro s
    by_cases hd : target_N % d = 0
    · simp only [List.foldlM_cons, List.filterMap_cons, hd, if_pos, scanStep]
      cases hc : candStep s (mkCand width height target_N d) with
      | error e => simp [hc, except_bind_error]
      | ok s' => simp [hc, except_bind_ok, ih s']
    · simp [List.foldlM_cons, List.filterMap_cons, hd, scanStep, except_bind_ok, ih s]

lemma gridSearch_eq (width height target_N : Nat) :
    gridSearch width height target_N =
      (candList width height target_N).foldlM candStep none :=
  foldlM_scanStep width height target_N _ none

lemma foldlM_candStep_ok :
    ∀ (l : List Cand), (∀ c ∈ l, 0 < c.patch_size_candidate) →
      ∀ s, l.foldlM candStep s = .ok (l.foldl candStepP s) := by
  intro l
  induction l with
  | nil => intro _ s; rfl
  | cons c l ih =>
    intro hpos s
    have hc : c.patch_size_candidate ≠ 0 :=
      Nat.pos_iff_ne_zero.mp (hpos c (by simp))
    have hl : ∀ x ∈ l, 0 < x.patch_size_candidate := fun x hx => hpos x (by simp [hx])
    simp [List.foldlM_cons, candStep, hc, except_bind_ok, ih hl]

lemma candStepP_cases (s : Option Cand) (c : Cand) :
    candStepP s c = some c ∨ candStepP s c = s := by
  cases s with
  | none =>
    by_cases h : 0 < c.patch_size_candidate
    · exact Or.inl (by simp [candStepP, h])
    · exact Or.inr (by simp [candStepP, h])
  | some b =>
    by_cases h : c.score < b.score ∧ 0 < c.patch_size_candidate
    · exact Or.inl (by simp [candStepP, h])
    · exact Or.inr (by simp [candStepP, h])

lemma foldlM_candStep_mem :
    ∀ (l : List Cand) (s : Option Cand) (r : Cand),
      l.foldlM candStep s = .ok (some r) → s = some r ∨ r ∈ l := by
  intro l
  induction l with
  | nil =>
    intro s r h
    exact Or.inl (by simpa [List.foldlM_nil] using (Except.ok.injEq _ _).mp h)
  | cons c l ih =>
    intro s r h
    by_cases hc : c.patch_size_candidate = 0
    · simp [List.foldlM_cons, candStep, hc, except_bind_error] at h
    · rw [List.foldlM_cons] at h
      have h' : l.foldlM candStep (candStepP s c) = .ok (some r) := by
        simpa [candStep, hc, except_bind_ok] using h
      rcases ih (candStepP s c) r h' with hs | hmem
      · rcases candStepP_cases s c with he | he
        · have hcr : c = r := Option.some.inj (he.symm.trans hs)
          exact Or.inr (hcr ▸ List.mem_cons_self c l)
        · exact Or.inl (he.symm.trans hs)
      · exact Or.inr (List.mem_cons_of_mem _ hmem)

lemma foldl_candStepP_min :
    ∀ (l : List Cand), (∀ c ∈ l, 0 < c.patch_size_candidate) →
      ∀ b : Cand, ∃ r l₁ l₂,
        l.foldl candStepP (some b) = some r ∧ b :: l = l₁ ++ r :: l₂ ∧
        (∀ c ∈ l₁, r.score < c.score) ∧ (∀ c ∈ l₂, r.score ≤ c.score) := by
  intro l
  induction l with
  | nil =>
    intro _ b
    exact ⟨b, [], [], rfl, rfl, by simp, by simp⟩
  | cons c l ih =>
    intro hpos b
    have hc : 0 < c.patch_size_candidate := hpos c (by simp)
    have hl : ∀ x ∈ l, 0 < x.patch_size_candidate := fun x hx => hpos x (by simp [hx])
    by_cases hscore : c.score < b.score
    · have hstep : candStepP (some b) c = some c := by
        simp [candStepP, hscore, hc]
      obtain ⟨r, l₁, l₂, hr, hdec, h₁, h₂⟩ := ih hl c
      have hrc : r.score ≤ c.score := by
        cases l₁ with
        | nil =>
          have : c = r := by simpa using congrArg (fun t => t.head?) hdec
          exact Nat.le_of_eq (this ▸ rfl)
        | cons a t =>
          have hac : a = c := by
            have := congrArg (fun t => t.head?) hdec
            simpa using this.symm
          exact Nat.le_of_lt (h₁ a (by simp) |>.trans_le (Nat.le_of_eq (by rw [hac])))
      refine ⟨r, b :: l₁, l₂, ?_, ?_, ?_, h₂⟩
      · simpa [List.foldl_cons, hstep] using hr
      · simpa using hdec
      · intro x hx
        rcases List.mem_cons.mp hx with hxb | hxl
        · exact hxb ▸ Nat.lt_of_le_of_lt hrc hscore
        · exact h₁ x hxl
    · have hstep : candStepP (some b) c = some b := by
        have : ¬(c.score < b.score ∧ 0 < c.patch_size_candidate) := fun h => hscore h.1
        simp [candStepP, this]
      have hbc : b.score ≤ c.score := Nat.le_of_not_lt hscore
      obtain ⟨r, l₁, l₂, hr, hdec, h₁, h₂⟩ := ih hl b
      cases l₁ with
      | nil =>
        have hbr : b = r := by simpa using congrArg (fun t => t.head?) hdec
        have hll : l = l₂ := by simpa using congrArg (fun t => t.tail) hdec
        refine ⟨r, [], c :: l₂, by simpa [List.foldl_cons, hstep] using hr,
          by simp [hbr, hll], by simp, ?_⟩
        intro x hx
        rcases List.mem_cons.mp hx with hxc | hxl
        · exact hxc ▸ (hbr ▸ hbc)
        · exact h₂ x hxl
      | cons a t =>
        have hab : a = b := by
          have := congrArg (fun t => t.head?) hdec
          simpa using this.symm
        have hlt : l = t ++ r :: l₂ := by
          have := congrArg (fun t => t.tail) hdec
          simpa using this
        have hrb : r.score < b.score := hab ▸ h₁ a (by simp)
        refine ⟨r, b :: c :: t, l₂, by simpa [List.foldl_cons, hstep] using hr,
          by simp [hlt], ?_, h₂⟩
        intro x hx
        rcases List.mem_cons.mp hx with hxb | hx'
        · exact hxb ▸ hrb
        · rcases List.mem_cons.mp hx' with hxc | hxt
          · exact hxc ▸ Nat.lt_of_lt_of_le hrb hbc
          · exact h₁ x (hab ▸ List.mem_cons_of_mem a hxt)

lemma candList_eq_cons (width height target_N : Nat) :
    candList width height target_N =
      mkCand width height target_N 1 ::
        (List.range' 2 (isqrt target_N)).filterMap (fun d =>
          if target_N % d = 0 then some (mkCand width height target_N d) else none) := by
  rw [candList, List.range'_succ]
  simp [List.filterMap_cons, Nat.mod_one]

lemma mkCand_psc (width height target_N d : Nat) :
    (mkCand width height target_N d).patch_size_candidate =
      min (height / d) (width / (target_N / d)) := rfl

lemma mkCand_ny (width height target_N d : Nat) :
    (mkCand width height target_N d).num_patches_y = d := rfl

lemma mkCand_nx (width height target_N d : Nat) :
    (mkCand width height target_N d).num_patches_x = target_N / d := rfl

lemma mkCand_score (width height target_N d : Nat) :
    (mkCand width height target_N d).score =
      if (width / min (height / d) (width / (target_N / d))) *
          (height / min (height / d) (width / (target_N / d))) = target_N then
        absDiff (height / d) (width / (target_N / d))
      else
        absDiff ((width / min (height / d) (width / (target_N / d))) *
            (height / min (height / d) (width / (target_N / d)))) target_N * 1000 +
          absDiff (height / d) (width / (target_N / d)) := rfl

lemma mem_candList_iff {width height target_N : Nat} {c : Cand} :
    c ∈ candList width height target_N ↔
      ∃ d, 1 ≤ d ∧ d ≤ isqrt target_N + 1 ∧ target_N % d = 0 ∧
        c = mkCand width height target_N d := by
  constructor
  · intro hc
    obtain ⟨d, hd, he⟩ := List.mem_filterMap.mp hc
    obtain ⟨i, hi, hdi⟩ := List.mem_range'.mp hd
    by_cases h : target_N % d = 0
    · refine ⟨d, by omega, by omega, h, ?_⟩
      rw [if_pos h] at he
      exact (Option.some.inj he).symm
    · rw [if_neg h] at he
      exact absurd he (by simp)
  · rintro ⟨d, h1, h2, h3, rfl⟩
    refine List.mem_filterMap.mpr ⟨d, ?_, by rw [if_pos h3]⟩
    exact List.mem_range'.mpr ⟨d - 1, by omega, by omega⟩

lemma gridSearch_spec (width height target_N : Nat)
    (hpos : ∀ c ∈ candList width height target_N, 0 < c.patch_size_candidate) :
    ∃ r l₁ l₂, gridSearch width height target_N = .ok (some r) ∧
      candList width height target_N = l₁ ++ r :: l₂ ∧
      (∀ c ∈ l₁, r.score < c.score) ∧ (∀ c ∈ l₂, r.score ≤ c.score) := by
  obtain ⟨rest, hrest⟩ :
      ∃ rest, candList width height target_N =
        mkCand width height target_N 1 :: rest :=
    ⟨_, candList_eq_cons width height target_N⟩
  set c₀ := mkCand width height target_N 1 with hc₀
  have hc₀pos : 0 < c₀.patch_size_candidate := hpos c₀ (by rw [hrest]; simp)
  have hrestpos : ∀ c ∈ rest, 0 < c.patch_size_candidate := fun c hc =>
    hpos c (by rw [hrest]; simp [hc])
  have hallpos : ∀ c ∈ candList width height target_N, 0 < c.patch_size_candidate := hpos
  obtain ⟨r, l₁, l₂, hr, hdec, h₁, h₂⟩ := foldl_candStepP_min rest hrestpos c₀
  refine ⟨r, l₁, l₂, ?_, by rw [hrest, hdec], h₁, h₂⟩
  rw [gridSearch_eq, hrest, foldlM_candStep_ok _ (by rw [← hrest]; exact hallpos) none]
  have hstep : candStepP none c₀ = some c₀ := by simp [candStepP, hc₀pos]
  rw [List.foldl_cons, hstep, hr]

lemma planLayout_of_search {width height target_N : Nat} {r : Cand}
    (h9 : target_N ≠ 9) (hs : gridSearch width height target_N = .ok (some r)) :
    planLayout width height target_N =
      .ok ⟨r.num_patches_y, r.num_patches_x, r.patch_size_candidate⟩ := by
  rw [planLayout, hs]
  simp [h9]

lemma planLayout_of_search_nine {width height : Nat} {b : Option Cand}
    (hs : gridSearch width height 9 = .ok b) :
    planLayout width height 9 = .ok ⟨3, 3, min (width / 3) (height / 3)⟩ := by
  rw [planLayout, hs]
  simp

lemma planLayout_shape {width height target_N : Nat} {g : GridLayout}
    (h : planLayout width height target_N = .ok g) :
    g = ⟨3, 3, min (width / 3) (height / 3)⟩ ∨
      ∃ c ∈ candList width height target_N,
        g = ⟨c.num_patches_y, c.num_patches_x, c.patch_size_candidate⟩ := by
  rw [planLayout] at h
  cases hs : gridSearch width height target_N with
  | error e => rw [hs] at h; exact absurd h (by simp)
  | ok best =>
    rw [hs] at h
    by_cases h9 : target_N = 9
    · simp only [h9, if_true, reduceIte] at h
      exact Or.inl (Except.ok.inj h).symm
    · simp only [h9, if_false, ite_false, reduceIte] at h
      cases best with
      | none => exact Or.inl (Except.ok.inj h).symm
      | some c =>
        have hc : c ∈ candList width height target_N := by
          have hmm := foldlM_candStep_mem (candList width height target_N) none c
            (by rw [← gridSearch_eq, hs])
          rcases hmm with habs | hmem
          · exact absurd habs (by simp)
          · exact hmem
        exact Or.inr ⟨c, hc, (Except.ok.inj h).symm⟩

/-! ### The emission loop as a capped row-major traversal -/

lemma foldl_flatMap {α β γ : Type} (g : α → List β) (f : γ → β → γ) :
    ∀ (l : List α) (init : γ),
      (l.flatMap g).foldl f init = l.foldl (fun c a => (g a).foldl f c) init := by
  intro l
  induction l with
  | nil => intro init; rfl
  | cons a l ih =>
    intro init
    rw [List.flatMap_cons, List.foldl_append, List.foldl_cons, ih]

lemma capped_foldl {α β : Type} (f : α → β) (t : Nat) :
    ∀ (l : List α) (n : Nat) (acc : List β), n = acc.length → n ≤ t →
      l.foldl (fun s x => if t ≤ s.1 then s else (s.1 + 1, s.2 ++ [f x])) (n, acc) =
        (min t (n + l.length), acc ++ (l.take (t - n)).map f) := by
  intro l
  induction l with
  | nil =>
    intro n acc hn hnt
    simp [Nat.min_eq_right, hnt]
  | cons x l ih =>
    intro n acc hn hnt
    rw [List.foldl_cons]
    by_cases hcap : t ≤ n
    · have hteq : n = t := Nat.le_antisymm hnt hcap
      rw [if_pos hcap, ih n acc hn hnt]
      have h0 : t - n = 0 := by omega
      have hmin : ∀ m, min t (n + m) = t := fun m => by omega
      simp [h0, hmin]
    · have hlt : n < t := Nat.lt_of_not_le hcap
      rw [if_neg hcap, ih (n + 1) (acc ++ [f x]) (by simp [hn]) hlt]
      have htake : (x :: l).take (t - n) = x :: l.take (t - n - 1) := by
        obtain ⟨m, hm⟩ : ∃ m, t - n = m + 1 := ⟨t - n - 1, by omega⟩
        rw [hm, List.take_succ_cons]
        simp
      rw [htake]
      have harith : n + 1 + l.length = n + (l.length + 1) := by omega
      have hsub : t - (n + 1) = t - n - 1 := by omega
      simp [harith, hsub, List.map_cons]

lemma emitLoop_eq (base_name : String) (width height : Nat) (g : GridLayout)
    (target_N : Nat) :
    emitLoop base_name width height g target_N =
      (min target_N (rowMajor g.num_patches_y g.num_patches_x).length,
        ((rowMajor g.num_patches_y g.num_patches_x).take target_N).map fun p =>
          makePatch base_name width height g.patch_size p.1 p.2) := by
  have hfold :
      emitLoop base_name width height g target_N =
        (rowMajor g.num_patches_y g.num_patches_x).foldl
          (fun s p =>
            if target_N ≤ s.1 then s
            else (s.1 + 1, s.2 ++ [makePatch base_name width height g.patch_size p.1 p.2]))
          (0, []) := by
    rw [emitLoop, rowMajor, foldl_flatMap]
    congr 1
    funext c i
    rw [List.foldl_map]
  rw [hfold]
  have := capped_foldl
    (fun p : Nat × Nat => makePatch base_name width height g.patch_size p.1 p.2)
    target_N (rowMajor g.num_patches_y g.num_patches_x) 0 [] rfl (Nat.zero_le _)
  simpa using this

lemma makePatch_fields (base_name : String) (width height patch_size i j : Nat) :
    (makePatch base_name width height patch_size i j).pixW = patch_size ∧
      (makePatch base_name width height patch_size i j).pixH = patch_size ∧
      (makePatch base_name width height patch_size i j).row = i ∧
      (makePatch base_name width height patch_size i j).col = j ∧
      (makePatch base_name width height patch_size i j).filename =
        base_name ++ "_patch_" ++ toString i ++ "_" ++ toString j ++ ".png" := by
  by_cases h : min (j * patch_size + patch_size) width - j * patch_size ≠ patch_size ∨
      min (i * patch_size + patch_size) height - i * patch_size ≠ patch_size
  · simp [makePatch, h]
  · push_neg at h
    simp [makePatch, h.1, h.2]

lemma divide_ok {image_path base_name : String} {width height target_N : Nat}
    {r : ExtractResult}
    (h : (divide_image_into_patches image_path base_name true width height target_N).2 =
      .ok r) :
    planLayout width height target_N = .ok r.layout ∧
      r.patch_count = (emitLoop base_name width height r.layout target_N).1 ∧
      r.patches = (emitLoop base_name width height r.layout target_N).2 := by
  rw [divide_image_into_patches] at h
  cases hp : planLayout width height target_N with
  | error e => rw [hp] at h; exact absurd h (by simp)
  | ok g =>
    rw [hp] at h
    simp only [Bool.not_true, if_false, ite_false, reduceIte] at h
    have hr : r = ⟨(emitLoop base_name width height g target_N).1, g,
        (emitLoop base_name width height g target_N).2⟩ := (Except.ok.inj h).symm
    subst hr
    exact ⟨rfl, rfl, rfl⟩

/-! ### Arithmetic helpers -/

lemma absDiff_pos {a b : Nat} (h : b < a) : 0 < absDiff a b := by
  rw [absDiff, Nat.max_eq_left (Nat.le_of_lt h), Nat.min_eq_right (Nat.le_of_lt h)]
  omega

lemma div_strict_anti {S d c : Nat} (hd : 0 < d) (hdc : d < c) (hS : d * c ≤ S) :
    S / c < S / d := by
  have hc : 0 < c := Nat.lt_of_lt_of_le hd (Nat.le_of_lt hdc)
  have hqd : d ≤ S / c := (Nat.le_div_iff_mul_le hc).mpr hS
  have hqc : S / c * c ≤ S := Nat.div_mul_le_self S c
  have hstep : (S / c + 1) * d ≤ S := by
    have h1 : (S / c + 1) * d = S / c * d + d := by ring
    have h2 : S / c * (d + 1) ≤ S / c * c := Nat.mul_le_mul_left _ hdc
    have h3 : S / c * (d + 1) = S / c * d + S / c := by ring
    omega
  have : S / c + 1 ≤ S / d := (Nat.le_div_iff_mul_le hd).mpr hstep
  omega

lemma div_div_of_sq_le {k S : Nat} (hk : 0 < k) (hS : k * k ≤ S) :
    S / (S / k) = k := by
  have hm : k ≤ S / k := (Nat.le_div_iff_mul_le hk).mpr hS
  have hm0 : 0 < S / k := Nat.lt_of_lt_of_le hk hm
  have hle : k ≤ S / (S / k) :=
    (Nat.le_div_iff_mul_le hm0).mpr (by rw [Nat.mul_comm]; exact Nat.div_mul_le_self S k)
  have hlt : S / (S / k) < k + 1 := by
    rw [Nat.div_lt_iff_lt_mul hm0]
    have hmod : S % k < k := Nat.mod_lt _ hk
    have hdm : k * (S / k) + S % k = S := Nat.div_add_mod S k
    have hexp : (k + 1) * (S / k) = k * (S / k) + S / k := by ring
    omega
  omega

lemma succ_not_dvd_sq (k : Nat) (hk : 1 ≤ k) : k * k % (k + 1) = 1 := by
  obtain ⟨m, rfl⟩ : ∃ m, k = m + 1 := ⟨k - 1, by omega⟩
  have h : (m + 1) * (m + 1) = 1 + m * (m + 2) := by ring
  rw [h]
  have h2 : m + 1 + 1 = m + 2 := by omega
  rw [h2, Nat.add_mul_mod_self_right]
  exact Nat.one_mod m

/-! ### Facts about candidate scores -/

lemma mkCand_score_lower (width height target_N d : Nat) :
    absDiff (height / d) (width / (target_N / d)) ≤
      (mkCand width height target_N d).score := by
  rw [mkCand_score]
  split
  · exact Nat.le_refl _
  · omega

lemma mkCand_square_score (k S : Nat) (hk : 1 ≤ k) (hS : k * k ≤ S) :
    (mkCand S S (k * k) k).score = 0 := by
  have hx : k * k / k = k := Nat.mul_div_cancel_left k (by omega)
  rw [mkCand_score, hx, Nat.min_self, div_div_of_sq_le (by omega) hS, if_pos rfl]
  simp [absDiff]

lemma mkCand_score_pos (k S d : Nat) (hd : 0 < d) (hdk : d < k)
    (hdvd : k * k % d = 0) (hS : k * k ≤ S) :
    0 < (mkCand S S (k * k) d).score := by
  have hdd : d ∣ k * k := Nat.dvd_of_mod_eq_zero hdvd
  have hq : d * (k * k / d) = k * k := Nat.mul_div_cancel' hdd
  have hgt : d < k * k / d := by
    have h1 : d * d < k * k := Nat.mul_lt_mul_of_lt_of_lt hdk hdk
    by_contra hle
    push_neg at hle
    have h2 : d * (k * k / d) ≤ d * d := Nat.mul_le_mul_left d hle
    rw [hq] at h2
    exact absurd (Nat.lt_of_lt_of_le h1 h2) (Nat.lt_irrefl _)
  have hmul : d * (k * k / d) ≤ S := by rw [hq]; exact hS
  have hlt : S / (k * k / d) < S / d := div_strict_anti hd hgt hmul
  have habs : 0 < absDiff (S / d) (S / (k * k / d)) := absDiff_pos hlt
  exact Nat.lt_of_lt_of_le habs (mkCand_score_lower S S (k * k) d)

/-! ### The chosen layout always fits inside the image -/

lemma layout_fits {width height target_N : Nat} {g : GridLayout}
    (h : planLayout width height target_N = .ok g) :
    g.num_patches_x * g.patch_size ≤ width ∧
      g.num_patches_y * g.patch_size ≤ height := by
  rcases planLayout_shape h with hg | ⟨c, hc, hg⟩
  · subst hg
    constructor
    · have h1 : 3 * min (width / 3) (height / 3) ≤ 3 * (width / 3) :=
        Nat.mul_le_mul_left _ (Nat.min_le_left _ _)
      have h2 : 3 * (width / 3) ≤ width := by
        rw [Nat.mul_comm]; exact Nat.div_mul_le_self width 3
      exact Nat.le_trans h1 h2
    · have h1 : 3 * min (width / 3) (height / 3) ≤ 3 * (height / 3) :=
        Nat.mul_le_mul_left _ (Nat.min_le_right _ _)
      have h2 : 3 * (height / 3) ≤ height := by
        rw [Nat.mul_comm]; exact Nat.div_mul_le_self height 3
      exact Nat.le_trans h1 h2
  · obtain ⟨d, hd1, hd2, hd3, rfl⟩ := mem_candList_iff.mp hc
    subst hg
    constructor
    · have h1 : target_N / d * min (height / d) (width / (target_N / d)) ≤
          target_N / d * (width / (target_N / d)) :=
        Nat.mul_le_mul_left _ (Nat.min_le_right _ _)
      have h2 : target_N / d * (width / (target_N / d)) ≤ width := by
        rw [Nat.mul_comm]; exact Nat.div_mul_le_self width (target_N / d)
      exact Nat.le_trans h1 h2
    · have h1 : d * min (height / d) (width / (target_N / d)) ≤ d * (height / d) :=
        Nat.mul_le_mul_left _ (Nat.min_le_left _ _)
      have h2 : d * (height / d) ≤ height := by
        rw [Nat.mul_comm]; exact Nat.div_mul_le_self height d
      exact Nat.le_trans h1 h2

lemma crop_exact {width height patch_size ny nx : Nat}
    (hx : nx * patch_size ≤ width) (hy : ny * patch_size ≤ height)
    {i j : Nat} (hi : i < ny) (hj : j < nx) (base_name : String) :
    min (j * patch_size + patch_size) width = j * patch_size + patch_size ∧
      min (i * patch_size + patch_size) height = i * patch_size + patch_size ∧
      (makePatch base_name width height patch_size i j).resized = false := by
  have hxb : j * patch_size + patch_size ≤ width := by
    have hstep : (j + 1) * patch_size ≤ nx * patch_size :=
      Nat.mul_le_mul_right _ hj
    have hexp : (j + 1) * patch_size = j * patch_size + patch_size := by ring
    omega
  have hyb : i * patch_size + patch_size ≤ height := by
    have hstep : (i + 1) * patch_size ≤ ny * patch_size :=
      Nat.mul_le_mul_right _ hi
    have hexp : (i + 1) * patch_size = i * patch_size + patch_size := by ring
    omega
  have hcw : min (j * patch_size + patch_size) width - j * patch_size = patch_size := by
    rw [Nat.min_eq_left hxb]; omega
  have hch : min (i * patch_size + patch_size) height - i * patch_size = patch_size := by
    rw [Nat.min_eq_left hyb]; omega
  exact ⟨Nat.min_eq_left hxb, Nat.min_eq_left hyb, by simp [makePatch, hcw, hch]⟩

/-! ## Claim theorems -/

/-- Claim C1 (corrected): for every positive `width`, `height` and `target_N`
such that `target_N ≠ 9` and every enumerated candidate has a positive edge
(so the candidate loop raises no `ZeroDivisionError`), the Grid Planner
enumerates exactly the divisors `rows` of `target_N` in
`[1, floor(sqrt(target_N)) + 1]` — the list `candList`, whose entries carry
`columns = target_N / rows` and the stated score — and returns the first
candidate of strictly lowest score: strictly below every earlier candidate's
score and at most every later one's. -/
theorem planLayout_returns_first_strict_min (width height target_N : Nat)
    (hw : 0 < width) (hh : 0 < height) (hN : 0 < target_N) (h9 : target_N ≠ 9)
    (hpos : ∀ c ∈ candList width height target_N, 0 < c.patch_size_candidate) :
    ∃ b l₁ l₂,
      planLayout width height target_N =
        .ok ⟨b.num_patches_y, b.num_patches_x, b.patch_size_candidate⟩ ∧
      candList width height target_N = l₁ ++ b :: l₂ ∧
      (∀ c ∈ l₁, b.score < c.score) ∧ (∀ c ∈ l₂, b.score ≤ c.score) := by
  obtain ⟨r, l₁, l₂, hs, hdec, h₁, h₂⟩ := gridSearch_spec width height target_N hpos
  exact ⟨r, l₁, l₂, planLayout_of_search h9 hs, hdec, h₁, h₂⟩

/-- Witness for claim C1 at `width = 1200`, `height = 800`, `target_N = 6`. -/
theorem planLayout_returns_first_strict_min_w :
    ∃ b l₁ l₂,
      planLayout 1200 800 6 =
        .ok ⟨b.num_patches_y, b.num_patches_x, b.patch_size_candidate⟩ ∧
      candList 1200 800 6 = l₁ ++ b :: l₂ ∧
      (∀ c ∈ l₁, b.score < c.score) ∧ (∀ c ∈ l₂, b.score ≤ c.score) :=
  planLayout_returns_first_strict_min 1200 800 6 (by decide) (by decide)
    (by decide) (by decide) (by decide)

/-- Counterexample to claim C1 as stated: at `width = height = 1`,
`target_N = 2` the planner raises `ZeroDivisionError` instead of returning a
candidate, and at `width = 900`, `height = 10`, `target_N = 9` the planner
returns the 3x3 override although the enumerated candidate with `rows = 1` has
a positive edge and a strictly lower score than the `rows = 3` candidate the
returned layout corresponds to. -/
theorem planLayout_returns_first_strict_min_cex :
    planLayout 1 1 2 = .error () ∧
      planLayout 900 10 9 = .ok ⟨3, 3, 3⟩ ∧
      mkCand 900 10 9 1 ∈ candList 900 10 9 ∧
      0 < (mkCand 900 10 9 1).patch_size_candidate ∧
      (mkCand 900 10 9 1).score < (mkCand 900 10 9 3).score ∧
      (mkCand 900 10 9 1).num_patches_y ≠ 3 :=
  ⟨rfl, rfl, by decide, by decide, by decide, by decide⟩

/-- Claim C2 (corrected): whenever `target_N = 9` and the preceding general
search raises no `ZeroDivisionError` — exactly when `width ≥ 9` and
`height ≥ 3` — the Grid Planner returns `rows = 3`, `columns = 3` with
`edge = min (width // 3) (height // 3)`, regardless of aspect ratio and of what
the search found. -/
theorem planLayout_nine_override (width height : Nat)
    (hw : 9 ≤ width) (hh : 3 ≤ height) :
    planLayout width height 9 = .ok ⟨3, 3, min (width / 3) (height / 3)⟩ := by
  have hpos : ∀ c ∈ candList width height 9, 0 < c.patch_size_candidate := by
    intro c hc
    obtain ⟨d, hd1, hd2, hd3, rfl⟩ := mem_candList_iff.mp hc
    have hq : isqrt 9 = 3 := by decide
    rw [hq] at hd2
    have hd : d = 1 ∨ d = 3 := by interval_cases d <;> omega
    rcases hd with rfl | rfl
    · rw [mkCand_psc]
      have h1 : 0 < height / 1 := by simpa using Nat.lt_of_lt_of_le (by norm_num) hh
      have h2 : 0 < width / (9 / 1) := by
        have : 0 < width / 9 := Nat.div_pos hw (by norm_num)
        simpa using this
      exact lt_min h1 h2
    · rw [mkCand_psc]
      have h1 : 0 < height / 3 := Nat.div_pos hh (by norm_num)
      have h2 : 0 < width / (9 / 3) := by
        have : 0 < width / 3 := Nat.div_pos (by omega) (by norm_num)
        simpa using this
      exact lt_min h1 h2
  obtain ⟨r, l₁, l₂, hs, hdec, h₁, h₂⟩ := gridSearch_spec width height 9 hpos
  exact planLayout_of_search_nine hs

/-- Witness for claim C2 at `width = 9`, `height = 3`. -/
theorem planLayout_nine_override_w :
    planLayout 9 3 9 = .ok ⟨3, 3, min (9 / 3) (3 / 3)⟩ :=
  planLayout_nine_override 9 3 (by decide) (by decide)

/-- Counterexample to claim C2 as stated: at the positive dimensions
`width = height = 1` and `target_N = 9` the planner raises `ZeroDivisionError`
in the general search before the override can run, so no layout is returned. -/
theorem planLayout_nine_override_cex :
    planLayout 1 1 9 = .error () ∧ ∀ g : GridLayout, planLayout 1 1 9 ≠ .ok g := by
  refine ⟨rfl, fun g h => ?_⟩
  rw [show planLayout 1 1 9 = .error () from rfl] at h
  exact Except.noConfusion h

/-- Claim C3 (code bug): the Grid Planner is not total — at `width = 1`,
`height = 1`, `target_N = 2` the candidate `rows = 1` has
`min (height // rows) (width // columns) = 0` and the source divides by it at
`actual_num_x = width // patch_size_candidate` before the `> 0` guard, raising
`ZeroDivisionError`. -/
theorem planLayout_zero_division :
    planLayout 1 1 2 = .error () ∧ (mkCand 1 1 2 1).patch_size_candidate = 0 :=
  ⟨rfl, rfl⟩

/-- Claim C4 (code bug): at `width = 2`, `height = 2`, `target_N = 5` no
enumerated candidate has a positive edge, and instead of reaching the 3x3
fallback branch the planner raises `ZeroDivisionError`: the fallback is
unreachable for such inputs. -/
theorem fallback_branch_unreachable :
    (∀ c ∈ candList 2 2 5, c.patch_size_candidate = 0) ∧
      planLayout 2 2 5 = .error () :=
  ⟨by decide, rfl⟩

/-- Claim C7 (confirmed): when the image path does not exist,
`divide_image_into_patches` fails with the NotFound error carrying that path,
and the output directory is not created (the `os.makedirs` flag stays
`false`). -/
theorem extract_notFound_no_dir (image_path base_name : String)
    (width height target_N : Nat) :
    divide_image_into_patches image_path base_name false width height target_N =
      (false, .error (.notFound image_path)) := rfl

/-- Claim C8 (confirmed): at `width = 1200`, `height = 800`, `target_N = 6`
the Grid Planner returns `rows = 2`, `columns = 3` with
`edge = min (800 // 2) (1200 // 3) = 400`, and that candidate beats the other
two enumerated candidates on score. -/
theorem planLayout_1200_800_6 :
    planLayout 1200 800 6 = .ok ⟨2, 3, 400⟩ ∧
      (mkCand 1200 800 6 2).patch_size_candidate = min (800 / 2) (1200 / 3) ∧
      (mkCand 1200 800 6 2).score < (mkCand 1200 800 6 1).score ∧
      (mkCand 1200 800 6 2).score < (mkCand 1200 800 6 3).score :=
  ⟨rfl, rfl, by decide, by decide⟩

/-- Claim C5 (confirmed): every completing `divide_image_into_patches` call
writes at most `target_N` patch files — even when the chosen layout's
`rows × columns` exceeds `target_N` — and returns exactly the number of files
it wrote. -/
theorem extract_count_le_target (image_path base_name : String)
    (width height target_N : Nat) (r : ExtractResult)
    (hok : (divide_image_into_patches image_path base_name true
        width height target_N).2 = .ok r) :
    r.patch_count = r.patches.length ∧ r.patches.length ≤ target_N := by
  obtain ⟨hlay, hcnt, hps⟩ := divide_ok hok
  rw [hcnt, hps, emitLoop_eq]
  constructor
  · simp [List.length_take]
  · simp only [List.length_map, List.length_take]
    exact Nat.min_le_left _ _

/-- Witness for claim C5 at a 5x5 image with `target_N = 1`. -/
theorem extract_count_le_target_w :
    (⟨1, ⟨1, 1, 5⟩, [⟨0, 0, "b_patch_0_0.png", 5, 5, false⟩]⟩ :
        ExtractResult).patch_count =
      (⟨1, ⟨1, 1, 5⟩, [⟨0, 0, "b_patch_0_0.png", 5, 5, false⟩]⟩ :
        ExtractResult).patches.length ∧
    (⟨1, ⟨1, 1, 5⟩, [⟨0, 0, "b_patch_0_0.png", 5, 5, false⟩]⟩ :
        ExtractResult).patches.length ≤ 1 :=
  extract_count_le_target "a" "b" 5 5 1
    ⟨1, ⟨1, 1, 5⟩, [⟨0, 0, "b_patch_0_0.png", 5, 5, false⟩]⟩ rfl

/-- Claim C9 (confirmed): the patches a completing call persists are exactly
the row-major traversal of the chosen layout truncated to `target_N`, and
every persisted patch is an exactly `patch_size × patch_size` square (the
conditional resize guarantees this) saved under the name
`<base_name>_patch_<row>_<col>.png`. -/
theorem extract_patch_shape_names (image_path base_name : String)
    (width height target_N : Nat) (r : ExtractResult)
    (hok : (divide_image_into_patches image_path base_name true
        width height target_N).2 = .ok r) :
    r.patches =
      ((rowMajor r.layout.num_patches_y r.layout.num_patches_x).take
          target_N).map
        (fun p => makePatch base_name width height r.layout.patch_size p.1 p.2) ∧
      ∀ pt ∈ r.patches,
        pt.pixW = r.layout.patch_size ∧ pt.pixH = r.layout.patch_size ∧
          pt.filename = base_name ++ "_patch_" ++ toString pt.row ++ "_" ++
            toString pt.col ++ ".png" := by
  obtain ⟨hlay, hcnt, hps⟩ := divide_ok hok
  have hmap : r.patches =
      ((rowMajor r.layout.num_patches_y r.layout.num_patches_x).take
          target_N).map
        (fun p => makePatch base_name width height r.layout.patch_size p.1 p.2) := by
    rw [hps, emitLoop_eq]
  refine ⟨hmap, ?_⟩
  intro pt hpt
  rw [hmap] at hpt
  obtain ⟨p, hp, hpe⟩ := List.mem_map.mp hpt
  obtain ⟨w1, w2, w3, w4, w5⟩ :=
    makePatch_fields base_name width height r.layout.patch_size p.1 p.2
  refine ⟨by rw [← hpe]; exact w1, by rw [← hpe]; exact w2, ?_⟩
  rw [← hpe, w5, w3, w4]

/-- Witness for claim C9 at a 7x7 image with `target_N = 1`. -/
theorem extract_patch_shape_names_w :
    (⟨1, ⟨1, 1, 7⟩, [⟨0, 0, "q_patch_0_0.png", 7, 7, false⟩]⟩ :
          ExtractResult).patches =
        ((rowMajor 1 1).take 1).map (fun p => makePatch "q" 7 7 7 p.1 p.2) ∧
      ∀ pt ∈ (⟨1, ⟨1, 1, 7⟩, [⟨0, 0, "q_patch_0_0.png", 7, 7, false⟩]⟩ :
          ExtractResult).patches,
        pt.pixW = 7 ∧ pt.pixH = 7 ∧
          pt.filename = "q" ++ "_patch_" ++ toString pt.row ++ "_" ++
            toString pt.col ++ ".png" :=
  extract_patch_shape_names "p" "q" 7 7 1
    ⟨1, ⟨1, 1, 7⟩, [⟨0, 0, "q_patch_0_0.png", 7, 7, false⟩]⟩ rfl

/-- Claim C10 (confirmed): every layout the planner returns satisfies
`columns * edge ≤ width` and `rows * edge ≤ height`, so every emitted patch's
crop box lies inside the image (the clamps to the image boundary are no-ops)
and the resize branch never runs. -/
theorem planLayout_crop_in_bounds (width height target_N : Nat) (g : GridLayout)
    (hok : planLayout width height target_N = .ok g) :
    g.num_patches_x * g.patch_size ≤ width ∧
      g.num_patches_y * g.patch_size ≤ height ∧
      ∀ (base_name : String) (i j : Nat),
        i < g.num_patches_y → j < g.num_patches_x →
          min (j * g.patch_size + g.patch_size) width =
              j * g.patch_size + g.patch_size ∧
            min (i * g.patch_size + g.patch_size) height =
              i * g.patch_size + g.patch_size ∧
            (makePatch base_name width height g.patch_size i j).resized = false := by
  obtain ⟨hx, hy⟩ := layout_fits hok
  exact ⟨hx, hy, fun base_name i j hi hj => crop_exact hx hy hi hj base_name⟩

/-- Witness for claim C10 at `width = 1200`, `height = 800`, `target_N = 6`. -/
theorem planLayout_crop_in_bounds_w :
    3 * 400 ≤ 1200 ∧ 2 * 400 ≤ 800 ∧
      min (2 * 400 + 400) 1200 = 2 * 400 + 400 ∧
      min (1 * 400 + 400) 800 = 1 * 400 + 400 ∧
      (makePatch "x" 1200 800 400 1 2).resized = false := by
  have h := planLayout_crop_in_bounds 1200 800 6 ⟨2, 3, 400⟩ rfl
  obtain ⟨h1, h2, h3⟩ := h
  obtain ⟨h4, h5, h6⟩ := h3 "x" 1 2 (by decide) (by decide)
  exact ⟨h1, h2, h4, h5, h6⟩

/-- Claim C6 (confirmed): for every perfect square `target_N = k * k` with
`k ≥ 1` and every square image whose side `S` satisfies `S ≥ k * k`
(sufficiently large relative to the target), the Grid Planner returns
`rows = columns = k` with `edge = S / k`; for `k = 3` this is the override,
for every other `k` the `rows = k` candidate scores `0` and wins the search. -/
theorem planLayout_perfect_square (k S : Nat) (hk : 1 ≤ k) (hS : k * k ≤ S) :
    planLayout S S (k * k) = .ok ⟨k, k, S / k⟩ := by
  have hN0 : 0 < k * k := Nat.mul_pos hk hk
  have hsq : isqrt (k * k) = k := isqrt_mul_self k
  have hpos : ∀ c ∈ candList S S (k * k), 0 < c.patch_size_candidate := by
    intro c hc
    obtain ⟨d, hd1, hd2, hd3, rfl⟩ := mem_candList_iff.mp hc
    have hdd : d ∣ k * k := Nat.dvd_of_mod_eq_zero hd3
    have hdN : d ≤ k * k := Nat.le_of_dvd hN0 hdd
    have hq1 : 0 < k * k / d := Nat.div_pos hdN (by omega)
    have hqN : k * k / d ≤ k * k := Nat.div_le_self _ _
    rw [mkCand_psc]
    exact lt_min (Nat.div_pos (Nat.le_trans hdN hS) (by omega))
      (Nat.div_pos (Nat.le_trans hqN hS) hq1)
  obtain ⟨r, l₁, l₂, hs, hdec, h₁, h₂⟩ := gridSearch_spec S S (k * k) hpos
  have hckmem : mkCand S S (k * k) k ∈ candList S S (k * k) :=
    mem_candList_iff.mpr ⟨k, hk, by omega, Nat.mul_mod_left k k, rfl⟩
  have hck0 : (mkCand S S (k * k) k).score = 0 := mkCand_square_score k S hk hS
  have hothers : ∀ c ∈ candList S S (k * k),
      c ≠ mkCand S S (k * k) k → 0 < c.score := by
    intro c hc hne
    obtain ⟨d, hd1, hd2, hd3, rfl⟩ := mem_candList_iff.mp hc
    rw [hsq] at hd2
    have hdk : d ≠ k := fun he => hne (by rw [he])
    have hdk1 : d ≠ k + 1 := by
      intro he
      rw [he, succ_not_dvd_sq k hk] at hd3
      exact one_ne_zero hd3
    have hdlt : d < k := by omega
    exact mkCand_score_pos k S d (by omega) hdlt hd3 hS
  have hrck : r = mkCand S S (k * k) k := by
    by_cases hre : r = mkCand S S (k * k) k
    · exact hre
    · exfalso
      have hrmem : r ∈ candList S S (k * k) := by
        rw [hdec]; exact List.mem_append_right _ (List.mem_cons_self _ _)
      have hr0 : 0 < r.score := hothers r hrmem hre
      have hckdec : mkCand S S (k * k) k ∈ l₁ ++ r :: l₂ := by
        rw [← hdec]; exact hckmem
      rcases List.mem_append.mp hckdec with hin1 | hin2
      · have := h₁ _ hin1
        omega
      · rcases List.mem_cons.mp hin2 with he | hin2'
        · exact hre he.symm
        · have := h₂ _ hin2'
          omega
  have hx : k * k / k = k := Nat.mul_div_cancel_left k (by omega)
  by_cases h9 : k * k = 9
  · have hk3 : k = 3 := by
      rcases Nat.lt_trichotomy k 3 with hlt | he | hgt
      · have hmul : k * k ≤ 2 * 2 := Nat.mul_le_mul (by omega) (by omega)
        omega
      · exact he
      · have hmul : 4 * 4 ≤ k * k := Nat.mul_le_mul (by omega) (by omega)
        omega
    subst hk3
    have hres := planLayout_of_search_nine
      (show gridSearch S S 9 = .ok (some r) from hs)
    rw [Nat.min_self] at hres
    exact hres
  · have hres := planLayout_of_search h9 hs
    rw [hrck] at hres
    rw [mkCand_ny, mkCand_nx, mkCand_psc, hx, Nat.min_self] at hres
    exact hres

/-- Witness for claim C6 at `k = 2`, `S = 4`. -/
theorem planLayout_perfect_square_w :
    planLayout 4 4 (2 * 2) = .ok ⟨2, 2, 4 / 2⟩ :=
  planLayout_perfect_square 2 4 (by decide) (by decide)
